import Mathlib

/-!
Verification of the eBPF probe in src/eBPF/tcpconnect.bpf.c.

The probe consists of one BPF hash map `counts` (key u32 pid, value u64
count, max_entries 8192) and one kprobe callback `on_tcp_connect`:

  u32 pid = bpf_get_current_pid_tgid() >> 32;
  u64 init = 1, *val = bpf_map_lookup_elem(&counts, &pid);
  if (val) __sync_fetch_and_add(val, 1);
  else bpf_map_update_elem(&counts, &pid, &init, BPF_ANY);
  return 0;

The map is embedded as an association list of (key, value) pairs of
natural numbers; machine arithmetic is modelled with explicit reductions
modulo 2 ^ 32 and 2 ^ 64.  `bpf_map_update_elem` with flag `BPF_ANY` on a
hash map replaces the value when the key is present (always succeeding),
inserts when the key is absent and the map is below `max_entries`, and
fails (leaving the map unchanged) when the key is absent and the map is
full; this is the semantics embedded in `bpf_map_update_elem_any`.
`__sync_fetch_and_add(val, 1)` is an in-place increment of the stored
64-bit value, wrapping modulo 2 ^ 64; it is embedded as `incrAt`.
-/

/-- Range of an unsigned 32-bit integer. -/
def U32 : Nat := 2 ^ 32

/-- Range of an unsigned 64-bit integer. -/
def U64 : Nat := 2 ^ 64

/-- The `max_entries` attribute of the `counts` map. -/
def maxEntries : Nat := 8192

/-- The `counts` BPF hash map, embedded as an association list from pid
keys to count values.  The BPF hash map holds at most one cell per key;
reachable tables in this model keep their keys pairwise distinct. -/
abbrev Table := List (Nat × Nat)

/-- Embedding of `bpf_map_lookup_elem(&counts, &k)`: the value stored for
key `k`, or `none` when no cell with key `k` exists. -/
def lookupTable : Table → Nat → Option Nat
  | [], _ => none
  | (k1, v) :: t, k => if k1 = k then some v else lookupTable t k

/-- Replace the value of the (first) cell with key `k` by `v`.  Used by
`bpf_map_update_elem_any` when the key is already present. -/
def overwrite : Table → Nat → Nat → Table
  | [], _, _ => []
  | (k1, v1) :: t, k, v => if k1 = k then (k, v) :: t else (k1, v1) :: overwrite t k v

/-- Embedding of `bpf_map_update_elem(&counts, &k, &v, BPF_ANY)` on a BPF
hash map: replace in place when the key exists, insert when there is a
free slot, otherwise fail and leave the map unchanged.  The boolean
records success (the C call returns 0 on success, negative on failure). -/
def bpf_map_update_elem_any (t : Table) (k v : Nat) : Table × Bool :=
  if (lookupTable t k).isSome then (overwrite t k v, true)
  else if t.length < maxEntries then ((k, v) :: t, true)
  else (t, false)

/-- Embedding of `__sync_fetch_and_add(val, 1)` where `val` points at the
cell of key `k`: increment that cell in place, wrapping modulo 2 ^ 64. -/
def incrAt : Table → Nat → Table
  | [], _ => []
  | (k1, v) :: t, k => if k1 = k then (k1, (v + 1) % U64) :: t else (k1, v) :: incrAt t k

/-- Embedding of `(u32)(bpf_get_current_pid_tgid() >> 32)`: the helper
returns a u64 whose upper 32 bits are the thread-group id; shifting right
by 32 keeps exactly those upper 32 bits. -/
def extractPid (pidTgid : Nat) : Nat := pidTgid % U64 / U32

/-- Embedding of the kprobe callback `on_tcp_connect`.  The calling
context is represented by the u64 `pidTgid` value the helper would
return; the result pairs the new table with the C return value. -/
def on_tcp_connect (t : Table) (pidTgid : Nat) : Table × Int :=
  let pid := extractPid pidTgid
  match lookupTable t pid with
  | some _ => (incrAt t pid, 0)
  | none => ((bpf_map_update_elem_any t pid 1).1, 0)

/-- The table after one callback invocation. -/
def connectStep (t : Table) (ptg : Nat) : Table := (on_tcp_connect t ptg).1

/-- Run `n` sequential events from the same calling context. -/
def runN : Nat → Table → Nat → Table
  | 0, t, _ => t
  | n + 1, t, ptg => runN n (connectStep t ptg) ptg

/-- Run a sequence of events, one per listed calling context. -/
def runEvents (l : List Nat) (t : Table) : Table := l.foldl connectStep t

/- Basic lemmas about the table operations. -/

theorem lookupTable_eq_none_iff (t : Table) (k : Nat) :
    lookupTable t k = none ↔ k ∉ t.map Prod.fst := by
  induction t with
  | nil => simp [lookupTable]
  | cons p t ih =>
    obtain ⟨k1, v⟩ := p
    by_cases h : k1 = k
    · simp [lookupTable, h, ih]
    · simp [lookupTable, h, ih]
      intro _ hkk
      exact h hkk.symm

theorem lookupTable_incrAt_self (t : Table) (k v : Nat)
    (h : lookupTable t k = some v) :
    lookupTable (incrAt t k) k = some ((v + 1) % U64) := by
  induction t with
  | nil => simp [lookupTable] at h
  | cons p t ih =>
    obtain ⟨k1, w⟩ := p
    by_cases hk : k1 = k
    · simp [lookupTable, hk] at h
      simp [incrAt, lookupTable, hk, h]
    · simp [lookupTable, hk] at h
      simp [incrAt, lookupTable, hk, ih h]

theorem lookupTable_incrAt_ne (t : Table) (k q : Nat) (h : q ≠ k) :
    lookupTable (incrAt t k) q = lookupTable t q := by
  induction t with
  | nil => simp [incrAt]
  | cons p t ih =>
    obtain ⟨k1, w⟩ := p
    by_cases hk : k1 = k
    · subst hk
      simp [incrAt, lookupTable, Ne.symm h]
    · by_cases hq : k1 = q <;> simp [incrAt, lookupTable, hk, hq, h, ih]

theorem length_incrAt (t : Table) (k : Nat) : (incrAt t k).length = t.length := by
  induction t with
  | nil => rfl
  | cons p t ih =>
    obtain ⟨k1, w⟩ := p
    by_cases hk : k1 = k <;> simp [incrAt, hk, ih]

theorem keys_incrAt (t : Table) (k : Nat) :
    (incrAt t k).map Prod.fst = t.map Prod.fst := by
  induction t with
  | nil => rfl
  | cons p t ih =>
    obtain ⟨k1, w⟩ := p
    by_cases hk : k1 = k <;> simp [incrAt, hk, ih]

theorem lookupTable_overwrite_self (t : Table) (k v v0 : Nat)
    (h : lookupTable t k = some v0) :
    lookupTable (overwrite t k v) k = some v := by
  induction t with
  | nil => simp [lookupTable] at h
  | cons p t ih =>
    obtain ⟨k1, w⟩ := p
    by_cases hk : k1 = k
    · simp [overwrite, hk, lookupTable]
    · simp [lookupTable, hk] at h
      simp [overwrite, lookupTable, hk, ih h]

theorem lookupTable_overwrite_ne (t : Table) (k v q : Nat) (h : q ≠ k) :
    lookupTable (overwrite t k v) q = lookupTable t q := by
  induction t with
  | nil => simp [overwrite]
  | cons p t ih =>
    obtain ⟨k1, w⟩ := p
    by_cases hk : k1 = k
    · subst hk
      simp [overwrite, lookupTable, Ne.symm h]
    · by_cases hq : k1 = q <;> simp [overwrite, lookupTable, hk, hq, h, ih]

theorem lookupTable_update_ne (t : Table) (k v q : Nat) (h : q ≠ k) :
    lookupTable (bpf_map_update_elem_any t k v).1 q = lookupTable t q := by
  unfold bpf_map_update_elem_any
  by_cases h1 : (lookupTable t k).isSome
  · simp [h1, lookupTable_overwrite_ne t k v q h]
  · by_cases h2 : t.length < maxEntries
    · simp [h1, h2, lookupTable, Ne.symm h]
    · simp [h1, h2]

/- Behaviour of one callback invocation on its own key. -/

theorem connectStep_of_some (t : Table) (ptg v : Nat)
    (h : lookupTable t (extractPid ptg) = some v) :
    connectStep t ptg = incrAt t (extractPid ptg) := by
  simp [connectStep, on_tcp_connect, h]

theorem connectStep_of_none_room (t : Table) (ptg : Nat)
    (h : lookupTable t (extractPid ptg) = none) (hroom : t.length < maxEntries) :
    connectStep t ptg = (extractPid ptg, 1) :: t := by
  simp [connectStep, on_tcp_connect, h, bpf_map_update_elem_any, hroom]

theorem connectStep_of_none_full (t : Table) (ptg : Nat)
    (h : lookupTable t (extractPid ptg) = none) (hfull : ¬t.length < maxEntries) :
    connectStep t ptg = t := by
  simp [connectStep, on_tcp_connect, h, bpf_map_update_elem_any, hfull]

theorem connectStep_of_none (t : Table) (ptg : Nat)
    (h : lookupTable t (extractPid ptg) = none) :
    connectStep t ptg = (bpf_map_update_elem_any t (extractPid ptg) 1).1 := by
  simp [connectStep, on_tcp_connect, h]

theorem lookupTable_connectStep_ne (t : Table) (ptg q : Nat)
    (h : q ≠ extractPid ptg) :
    lookupTable (connectStep t ptg) q = lookupTable t q := by
  cases hl : lookupTable t (extractPid ptg) with
  | some v =>
    rw [connectStep_of_some t ptg v hl]
    exact lookupTable_incrAt_ne t (extractPid ptg) q h
  | none =>
    rw [connectStep_of_none t ptg hl]
    exact lookupTable_update_ne t (extractPid ptg) 1 q h

/- Counting lemma for sequential events from one calling context. -/

theorem lookupTable_runN (n : Nat) : ∀ (t : Table) (ptg v : Nat), v < U64 →
    lookupTable t (extractPid ptg) = some v →
    lookupTable (runN n t ptg) (extractPid ptg) = some ((v + n) % U64) := by
  induction n with
  | zero =>
    intro t ptg v hv h
    simpa [runN, Nat.mod_eq_of_lt hv] using h
  | succ m ih =>
    intro t ptg v hv h
    have hstep : lookupTable (connectStep t ptg) (extractPid ptg) = some ((v + 1) % U64) := by
      rw [connectStep_of_some t ptg v h]
      exact lookupTable_incrAt_self t (extractPid ptg) v h
    have hU : 0 < U64 := by decide
    have := ih (connectStep t ptg) ptg ((v + 1) % U64) (Nat.mod_lt _ hU) hstep
    have heq : runN (m + 1) t ptg = runN m (connectStep t ptg) ptg := rfl
    have harg : v + 1 + m = v + (m + 1) := by omega
    rw [heq, this, Nat.mod_add_mod, harg]

/- A pre-filled table with n cells, keys 0, 1, ..., n - 1, values 1. -/

/-- Table holding keys `0, ..., n - 1`, each with value 1; used to realise
a table filled to capacity. -/
def mkTable : Nat → Table
  | 0 => []
  | n + 1 => (n, 1) :: mkTable n

theorem mkTable_length (n : Nat) : (mkTable n).length = n := by
  induction n with
  | zero => rfl
  | succ m ih => simp [mkTable, ih]

theorem mkTable_lookup_ge (n k : Nat) (h : n ≤ k) : lookupTable (mkTable n) k = none := by
  induction n with
  | zero => rfl
  | succ m ih =>
    have hne : m ≠ k := by omega
    simp [mkTable, lookupTable, hne, ih (by omega)]

theorem mkTable_keys_lt (n : Nat) : ∀ k, k ∈ (mkTable n).map Prod.fst → k < n := by
  induction n with
  | zero => intro k hk; simp [mkTable] at hk
  | succ m ih =>
    intro k hk
    simp [mkTable] at hk
    rcases hk with hk | hk
    · omega
    · have := ih k (by simpa using hk)
      omega

theorem mkTable_nodup (n : Nat) : ((mkTable n).map Prod.fst).Nodup := by
  induction n with
  | zero => simp [mkTable]
  | succ m ih =>
    simp only [mkTable, List.map_cons, List.nodup_cons]
    refine ⟨fun hmem => ?_, ih⟩
    have := mkTable_keys_lt m m (by simpa using hmem)
    omega

/- Bookkeeping for interleaving schedules over booleans. -/

theorem count_true_add_count_false (s : List Bool) :
    s.count true + s.count false = s.length := by
  induction s with
  | nil => rfl
  | cons b s ih =>
    cases b <;> simp [List.count_cons] <;> omega

/- Preservation of the table well-formedness invariant. -/

theorem connectStep_inv (t : Table) (ptg : Nat)
    (hnd : (t.map Prod.fst).Nodup) (hlen : t.length ≤ maxEntries) :
    ((connectStep t ptg).map Prod.fst).Nodup ∧ (connectStep t ptg).length ≤ maxEntries := by
  cases hl : lookupTable t (extractPid ptg) with
  | some v =>
    rw [connectStep_of_some t ptg v hl]
    exact ⟨by rw [keys_incrAt]; exact hnd, by rw [length_incrAt]; exact hlen⟩
  | none =>
    rw [connectStep_of_none t ptg hl]
    by_cases hroom : t.length < maxEntries
    · have hmem : extractPid ptg ∉ t.map Prod.fst := (lookupTable_eq_none_iff t _).mp hl
      simp only [bpf_map_update_elem_any, hl, Option.isSome_none, Bool.false_eq_true,
        if_false, hroom, if_true, List.map_cons, List.length_cons]
      exact ⟨List.nodup_cons.mpr ⟨hmem, hnd⟩, by omega⟩
    · simp only [bpf_map_update_elem_any, hl, Option.isSome_none, Bool.false_eq_true,
        if_false, hroom]
      exact ⟨hnd, hlen⟩

theorem runEvents_inv : ∀ (l : List Nat) (t : Table),
    (t.map Prod.fst).Nodup → t.length ≤ maxEntries →
    ((runEvents l t).map Prod.fst).Nodup ∧ (runEvents l t).length ≤ maxEntries := by
  intro l
  induction l with
  | nil => intro t hnd hlen; exact ⟨hnd, hlen⟩
  | cons x l ih =>
    intro t hnd hlen
    have hstep := connectStep_inv t x hnd hlen
    have heq : runEvents (x :: l) t = runEvents l (connectStep t x) := rfl
    rw [heq]
    exact ih (connectStep t x) hstep.1 hstep.2

/- Interleaved events of the two identifiers of end-to-end scenario B. -/

/-- Sequential interleaving of events of identifiers 100 and 200:
`true` is one event of process 100, `false` one event of process 200. -/
def runSched : List Bool → Table → Table
  | [], t => t
  | b :: s, t => runSched s (connectStep t (if b then 100 * 2 ^ 32 else 200 * 2 ^ 32))

/- Two racing callback instances at lookup/update granularity. -/

/-- One step of a single callback instance for pid `k`, at the
granularity of the map operations.  The program counter of an instance is
0 before its lookup, 1 after a lookup that returned NULL, 2 after a
lookup that found the cell, and 3 when the instance has returned.  The
update and the increment both act on the table as it is when they
execute, exactly as the C code acts through the map reference. -/
def tstep (k : Nat) (t : Table) (st : Nat) : Table × Nat :=
  match st with
  | 0 => (t, if (lookupTable t k).isSome then 2 else 1)
  | 1 => ((bpf_map_update_elem_any t k 1).1, 3)
  | 2 => (incrAt t k, 3)
  | _ => (t, st)

/-- Run two concurrent callback instances A and B for the same pid `k`
under an interleaving schedule: `true` gives the next step to instance A,
`false` to instance B. -/
def raceRun (k : Nat) : List Bool → Table → Nat → Nat → Table × Nat × Nat
  | [], t, sa, sb => (t, sa, sb)
  | true :: sch, t, sa, sb => raceRun k sch (tstep k t sa).1 (tstep k t sa).2 sb
  | false :: sch, t, sa, sb => raceRun k sch (tstep k t sb).1 sa (tstep k t sb).2

/- A full read of the table, with the map helper in state-passing form. -/

/-- State-passing form of `bpf_map_lookup_elem`: the helper returns the
stored value for the key and leaves the map as it was. -/
def mapRead (t : Table) (k : Nat) : Option Nat × Table := (lookupTable t k, t)

/-- Read every listed key in order, threading the table state through the
reads; returns the list of read results and the final table state. -/
def readAll : List Nat → Table → List (Option Nat) × Table
  | [], t => ([], t)
  | k :: ks, t =>
    ((mapRead t k).1 :: (readAll ks (mapRead t k).2).1, (readAll ks (mapRead t k).2).2)

theorem readAll_snd : ∀ (ks : List Nat) (t : Table), (readAll ks t).2 = t := by
  intro ks
  induction ks with
  | nil => intro t; rfl
  | cons k ks ih => intro t; simp [readAll, mapRead, ih]

theorem runN_succ (n : Nat) (t : Table) (ptg : Nat) :
    runN (n + 1) t ptg = runN n (connectStep t ptg) ptg := rfl

/- Claim C1. -/

/-- C1 (amended): for every sequence of N ≥ 1 connection-establishment
events issued sequentially by a single process identifier, starting from
a table with no entry for that identifier and at least one free slot,
running the callback N times leaves an entry for it whose stored count
equals N mod 2 ^ 64 - hence equals N whenever N < 2 ^ 64: the first
event creates the entry at 1 and each later event adds one, wrapping
modulo 2 ^ 64. -/
theorem c1_sequential_count_amended (t : Table) (ptg n : Nat)
    (habs : lookupTable t (extractPid ptg) = none)
    (hroom : t.length < maxEntries) (hn : 1 ≤ n) :
    lookupTable (runN n t ptg) (extractPid ptg) = some (n % U64) := by
  obtain ⟨m, rfl⟩ : ∃ m, n = m + 1 := ⟨n - 1, by omega⟩
  have h1 : lookupTable (connectStep t ptg) (extractPid ptg) = some 1 := by
    rw [connectStep_of_none_room t ptg habs hroom]
    simp [lookupTable]
  rw [runN_succ, lookupTable_runN m (connectStep t ptg) ptg 1 (by decide) h1,
    Nat.add_comm 1 m]

/-- Witness for C1: five sequential events of identifier 100 starting
from the empty table store the count 5. -/
theorem c1_sequential_count_witness :
    lookupTable (runN 5 [] (100 * 2 ^ 32)) (extractPid (100 * 2 ^ 32)) = some (5 % U64) :=
  c1_sequential_count_amended [] (100 * 2 ^ 32) 5 rfl (by decide) (by decide)

/-- C1 as literally stated fails at N = 2 ^ 64: after 2 ^ 64 sequential
events of identifier 100 starting from the empty table, the stored
64-bit count has wrapped around to 0 and does not equal N. -/
theorem c1_counterexample :
    lookupTable (runN (2 ^ 64) [] (100 * 2 ^ 32)) (extractPid (100 * 2 ^ 32)) ≠
      some (2 ^ 64) := by
  have h1 : lookupTable (connectStep [] (100 * 2 ^ 32)) (extractPid (100 * 2 ^ 32)) =
      some 1 := by
    rw [connectStep_of_none_room [] (100 * 2 ^ 32) rfl (by decide)]
    simp [lookupTable]
  have h2 := lookupTable_runN (2 ^ 64 - 1) (connectStep [] (100 * 2 ^ 32))
    (100 * 2 ^ 32) 1 (by decide) h1
  rw [show (2 ^ 64 : Nat) = (2 ^ 64 - 1) + 1 from by norm_num, runN_succ, h2]
  decide

/- Claim C2. -/

/-- C2: with the table already holding 8192 distinct keys and the calling
identifier absent from it, the callback leaves the table exactly as it
was - still 8192 entries, every pre-existing cell untouched, still no
entry for the new identifier - and returns 0, surfacing no error. -/
theorem c2_full_table_drop (t : Table) (ptg : Nat)
    (_hnd : (t.map Prod.fst).Nodup) (hlen : t.length = maxEntries)
    (habs : lookupTable t (extractPid ptg) = none) :
    (on_tcp_connect t ptg).1 = t ∧ (on_tcp_connect t ptg).2 = 0 ∧
      lookupTable (on_tcp_connect t ptg).1 (extractPid ptg) = none := by
  have hfull : ¬t.length < maxEntries := by omega
  have h1 : (on_tcp_connect t ptg).1 = t := connectStep_of_none_full t ptg habs hfull
  refine ⟨h1, ?_, by rw [h1]; exact habs⟩
  simp [on_tcp_connect, habs]

/-- Witness for C2: the table pre-filled with the 8192 distinct keys
0, ..., 8191 and one event of the fresh identifier 99999. -/
theorem c2_full_table_drop_witness :
    (on_tcp_connect (mkTable 8192) (99999 * 2 ^ 32)).1 = mkTable 8192 ∧
      (on_tcp_connect (mkTable 8192) (99999 * 2 ^ 32)).2 = 0 ∧
      lookupTable (on_tcp_connect (mkTable 8192) (99999 * 2 ^ 32)).1
        (extractPid (99999 * 2 ^ 32)) = none :=
  c2_full_table_drop (mkTable 8192) (99999 * 2 ^ 32) (mkTable_nodup 8192)
    (mkTable_length 8192)
    (by
      have hpid : extractPid (99999 * 2 ^ 32) = 99999 := by decide
      rw [hpid]
      exact mkTable_lookup_ge 8192 99999 (by omega))

/- Claim C3. -/

/-- C3 fails on the code: the callback performs its insert through
bpf_map_update_elem with flag BPF_ANY, so on a table where key 100 is
already stored with value 5 the insert with initial value 1 succeeds (it
is not rejected as a duplicate) and overwrites the stored value. -/
theorem c3_counterexample :
    (bpf_map_update_elem_any [(100, 5)] 100 1).2 = true ∧
      lookupTable (bpf_map_update_elem_any [(100, 5)] 100 1).1 100 ≠ some 5 := by
  decide

/-- C3 (amended): the insert operation the callback uses in step 4 is an
unconditional upsert (bpf_map_update_elem with BPF_ANY), not
insert-if-absent: for every table state in which the key is already
present, invoking it with initial value 1 succeeds and overwrites the
existing value with 1, leaving every other key unchanged. -/
theorem c3_upsert_amended (t : Table) (k v0 : Nat)
    (h : lookupTable t k = some v0) :
    (bpf_map_update_elem_any t k 1).2 = true ∧
      lookupTable (bpf_map_update_elem_any t k 1).1 k = some 1 ∧
      ∀ q, q ≠ k → lookupTable (bpf_map_update_elem_any t k 1).1 q = lookupTable t q := by
  have hs : (lookupTable t k).isSome = true := by rw [h]; rfl
  have h2 : bpf_map_update_elem_any t k 1 = (overwrite t k 1, true) := by
    simp [bpf_map_update_elem_any, hs]
  rw [h2]
  exact ⟨rfl, lookupTable_overwrite_self t k 1 v0 h,
    fun q hq => lookupTable_overwrite_ne t k 1 q hq⟩

/-- Witness for the amended C3 at the one-entry table holding (100, 5). -/
theorem c3_upsert_amended_witness :
    (bpf_map_update_elem_any [(100, 5)] 100 1).2 = true ∧
      lookupTable (bpf_map_update_elem_any [(100, 5)] 100 1).1 100 = some 1 :=
  ⟨(c3_upsert_amended [(100, 5)] 100 5 (by decide)).1,
    (c3_upsert_amended [(100, 5)] 100 5 (by decide)).2.1⟩

/- Claim C5. -/

/-- C5 as literally stated fails at the wrap of the 64-bit counter: an
event of identifier 7 on a table storing count 2 ^ 64 - 1 for key 7
leaves an entry whose after-value 0 is strictly below the before-value.
-/
theorem c5_counterexample :
    lookupTable [(7, 2 ^ 64 - 1)] 7 = some (2 ^ 64 - 1) ∧
      lookupTable (connectStep [(7, 2 ^ 64 - 1)] (7 * 2 ^ 32)) 7 = some 0 ∧
      (0 : Nat) < 2 ^ 64 - 1 := by
  decide

/-- C5 (amended): no invocation removes an entry, and a stored count
never decreases except for the wrap of the 64-bit counter: an invocation
maps the count of its own identifier from v to (v + 1) mod 2 ^ 64 and
leaves every other count unchanged, so whenever the before-value is not
2 ^ 64 - 1 the after-value is at least the before-value. -/
theorem c5_monotone_amended (t : Table) (ptg k v : Nat) (hv : v < U64)
    (h : lookupTable t k = some v) :
    lookupTable (connectStep t ptg) k =
        some (if k = extractPid ptg then (v + 1) % U64 else v) ∧
      (v ≠ U64 - 1 → v ≤ (if k = extractPid ptg then (v + 1) % U64 else v)) := by
  by_cases hk : k = extractPid ptg
  · subst hk
    have hif : (if extractPid ptg = extractPid ptg then (v + 1) % U64 else v) =
        (v + 1) % U64 := if_pos rfl
    rw [hif]
    refine ⟨?_, fun hne => ?_⟩
    · rw [connectStep_of_some t ptg v h]
      exact lookupTable_incrAt_self t (extractPid ptg) v h
    · have hlt : v + 1 < U64 := by omega
      rw [Nat.mod_eq_of_lt hlt]
      omega
  · have hif : (if k = extractPid ptg then (v + 1) % U64 else v) = v := if_neg hk
    rw [hif]
    exact ⟨by rw [lookupTable_connectStep_ne t ptg k hk]; exact h, fun _ => le_refl v⟩

/-- Witness for the amended C5: an event of identifier 3 on the table
holding (3, 10) leaves the entry at 11 ≥ 10. -/
theorem c5_monotone_amended_witness :
    lookupTable (connectStep [(3, 10)] (3 * 2 ^ 32)) 3 =
        some (if 3 = extractPid (3 * 2 ^ 32) then (10 + 1) % U64 else 10) ∧
      10 ≤ (if 3 = extractPid (3 * 2 ^ 32) then (10 + 1) % U64 else 10) :=
  ⟨(c5_monotone_amended [(3, 10)] (3 * 2 ^ 32) 3 10 (by decide) (by decide)).1,
    (c5_monotone_amended [(3, 10)] (3 * 2 ^ 32) 3 10 (by decide) (by decide)).2
      (by decide)⟩

/- Claim C6. -/

/-- C6: every table state reachable from the empty table by any sequence
of callback invocations holds at most 8192 entries, with pairwise
distinct keys - at most one entry per identifier. -/
theorem c6_bounded_size (l : List Nat) :
    ((runEvents l []).map Prod.fst).Nodup ∧ (runEvents l []).length ≤ maxEntries :=
  runEvents_inv l [] (by simp) (by simp [maxEntries])

/- Claim C7. -/

/-- C7: the callback never fails the instrumented path: for every table
state - a full table included - and every calling context it returns 0;
the counter table is the only state it touches, so an internal insert
failure shows up only as an undercount. -/
theorem c7_always_returns_zero (t : Table) (ptg : Nat) :
    (on_tcp_connect t ptg).2 = 0 := by
  cases hl : lookupTable t (extractPid ptg) with
  | none => simp [on_tcp_connect, hl]
  | some v => simp [on_tcp_connect, hl]

/- Claim C9. -/

/-- C9: reading is pure: a full read of the table - a lookup of every
key, threading the map state through the reads - leaves the table
unchanged, and a second full read with no intervening event returns
exactly the same results. -/
theorem c9_read_pure (t : Table) :
    (readAll (t.map Prod.fst) t).2 = t ∧
      (readAll (t.map Prod.fst) ((readAll (t.map Prod.fst) t).2)).1 =
        (readAll (t.map Prod.fst) t).1 := by
  refine ⟨readAll_snd (t.map Prod.fst) t, ?_⟩
  rw [readAll_snd (t.map Prod.fst) t]

/- Claim C10. -/

theorem extractPid_split (hi lo : Nat) (h1 : hi < U32) (h2 : lo < U32) :
    extractPid (hi * U32 + lo) = hi := by
  have h4 : (hi + 1) * U32 ≤ U32 * U32 :=
    Nat.mul_le_mul (by omega) (le_refl U32)
  have h5 : U32 * U32 = U64 := by norm_num [U32, U64]
  have hlt : hi * U32 + lo < U64 := by
    have h3 : hi * U32 + lo < (hi + 1) * U32 := by
      rw [Nat.succ_mul]
      omega
    omega
  unfold extractPid
  rw [Nat.mod_eq_of_lt hlt, Nat.mul_comm hi U32,
    Nat.mul_add_div (by norm_num [U32]), Nat.div_eq_of_lt h2]
  omega

/-- C10: the counter key is exactly the upper 32 bits of the 64-bit
pid/tgid value of the calling context - the thread-group id: every
context value decomposes as tgid * 2 ^ 32 + tid, the extracted key is the
tgid, and two contexts sharing the tgid drive the callback identically
whatever their lower 32 bits, so the thread id never influences which
entry is updated. -/
theorem c10_key_is_tgid (t : Table) (hi lo lo2 : Nat)
    (h1 : hi < U32) (h2 : lo < U32) (h3 : lo2 < U32) :
    extractPid (hi * U32 + lo) = hi ∧
      on_tcp_connect t (hi * U32 + lo) = on_tcp_connect t (hi * U32 + lo2) := by
  have e1 := extractPid_split hi lo h1 h2
  have e2 := extractPid_split hi lo2 h1 h3
  refine ⟨e1, ?_⟩
  simp only [on_tcp_connect, e1, e2]

/-- Witness for C10: thread-group id 100 with the two thread ids 5 and 7
on the empty table. -/
theorem c10_key_is_tgid_witness :
    extractPid (100 * U32 + 5) = 100 ∧
      on_tcp_connect [] (100 * U32 + 5) = on_tcp_connect [] (100 * U32 + 7) :=
  c10_key_is_tgid [] 100 5 7 (by decide) (by decide) (by decide)

/- Claim C4. -/

theorem scenarioB_case (a b c d e f : Bool) :
    (a :: b :: c :: d :: e :: f :: []).count true = 3 →
    (a :: b :: c :: d :: e :: f :: []).count false = 3 →
    lookupTable (runSched (a :: b :: c :: d :: e :: f :: []) []) 100 = some 3 ∧
      lookupTable (runSched (a :: b :: c :: d :: e :: f :: []) []) 200 = some 3 ∧
      (runSched (a :: b :: c :: d :: e :: f :: []) []).length = 2 := by
  cases a <;> cases b <;> cases c <;> cases d <;> cases e <;> cases f <;> decide

/-- C4: counts for distinct identifiers never cross-contaminate: an
invocation leaves the presence and value of every key other than the
calling identifier unchanged; consequently interleaving three events
each of identifiers 100 and 200 on the empty table, in any order, yields
exactly the two entries 100 at count 3 and 200 at count 3. -/
theorem c4_no_cross_contamination :
    (∀ (t : Table) (ptg q : Nat), q ≠ extractPid ptg →
        lookupTable (on_tcp_connect t ptg).1 q = lookupTable t q) ∧
      ∀ s : List Bool, s.count true = 3 → s.count false = 3 →
        lookupTable (runSched s []) 100 = some 3 ∧
          lookupTable (runSched s []) 200 = some 3 ∧ (runSched s []).length = 2 := by
  constructor
  · intro t ptg q hq
    exact lookupTable_connectStep_ne t ptg q hq
  · intro s h1 h2
    have hlen : s.length = 6 := by
      have := count_true_add_count_false s
      omega
    rcases s with _ | ⟨a, _ | ⟨b, _ | ⟨c, _ | ⟨d, _ | ⟨e, _ | ⟨f, _ | ⟨g, s⟩⟩⟩⟩⟩⟩⟩ <;>
      simp only [List.length_cons, List.length_nil] at hlen <;>
      first
        | omega
        | exact scenarioB_case a b c d e f h1 h2

/-- Witness for C4: the frame part at the table holding (5, 7) under one
event of identifier 100, and scenario B under the alternating schedule.
-/
theorem c4_no_cross_contamination_witness :
    lookupTable (on_tcp_connect [(5, 7)] (100 * 2 ^ 32)).1 5 = lookupTable [(5, 7)] 5 ∧
      lookupTable (runSched [true, false, true, false, true, false] []) 100 = some 3 ∧
      lookupTable (runSched [true, false, true, false, true, false] []) 200 = some 3 ∧
      (runSched [true, false, true, false, true, false] []).length = 2 :=
  ⟨c4_no_cross_contamination.1 [(5, 7)] (100 * 2 ^ 32) 5 (by decide),
    c4_no_cross_contamination.2 [true, false, true, false, true, false]
      (by decide) (by decide)⟩

/- Claim C8. -/

theorem raceCase (a b c d : Bool) (k : Nat) :
    (a :: b :: c :: d :: []).count true = 2 →
    (a :: b :: c :: d :: []).count false = 2 →
    (raceRun k (a :: b :: c :: d :: []) [] 0 0).1 = [(k, 1)] ∨
      (raceRun k (a :: b :: c :: d :: []) [] 0 0).1 = [(k, 2)] := by
  cases a <;> cases b <;> cases c <;> cases d <;>
    first
      | decide
      | (intro h1 h2
         simp [raceRun, tstep, lookupTable, bpf_map_update_elem_any, incrAt,
           overwrite, maxEntries, U64])

/-- C8: two concurrent first-events for the same never-before-seen
identifier, with the two callback instances interleaved arbitrarily at
the granularity of their lookup and update steps, leave exactly one
entry for that identifier, with value 1 or 2 - never 0, never more than
2, never two separate entries. -/
theorem c8_first_event_race (sch : List Bool) (k : Nat)
    (h1 : sch.count true = 2) (h2 : sch.count false = 2) :
    (raceRun k sch [] 0 0).1 = [(k, 1)] ∨ (raceRun k sch [] 0 0).1 = [(k, 2)] := by
  have hlen : sch.length = 4 := by
    have := count_true_add_count_false sch
    omega
  rcases sch with _ | ⟨a, _ | ⟨b, _ | ⟨c, _ | ⟨d, _ | ⟨e, s⟩⟩⟩⟩⟩ <;>
    simp only [List.length_cons, List.length_nil] at hlen <;>
    first
      | omega
      | exact raceCase a b c d k h1 h2

/-- Witness for C8: the alternating schedule A, B, A, B at identifier
100, where both instances observe the key absent and the second update
overwrites the first: the entry settles at count 1. -/
theorem c8_first_event_race_witness :
    (raceRun 100 [true, false, true, false] [] 0 0).1 = [(100, 1)] ∨
      (raceRun 100 [true, false, true, false] [] 0 0).1 = [(100, 2)] :=
  c8_first_event_race [true, false, true, false] 100 (by decide) (by decide)
